import Mathlib

/-!
Shallow embedding of the PVNet repository components:
the loss weighting in `predict_pv_yield/models/loss.py`, the persistence
baseline in `pvnet/models/baseline/last_value.py`, the conv3d encoders in
`pvnet/models/conv3d/encoders.py` (at the level of tensor shapes), and the
checkpoint-upload precondition in `scripts/checkpoint_to_huggingface.py`.
-/

namespace PVNet

/-! ### WeightedLosses (`predict_pv_yield/models/loss.py`) -/

/-- decay rate as set by `WeightedLosses.__init__`: the constructor argument,
or `ln 2` when the argument is `None`. -/
noncomputable def decayRateOf : Option ℝ → ℝ
  | none => Real.log 2
  | some r => r

/-- the unnormalised weights `[math.exp(-self.decay_rate * i) for i in
range(0, self.forecast_length)]` built in `WeightedLosses.__init__`. -/
noncomputable def rawWeights (decay_rate : ℝ) (forecast_length : ℕ) : List ℝ :=
  (List.range forecast_length).map (fun i : ℕ => Real.exp (-decay_rate * i))

/-- the normalised weight vector `weights / weights.sum()` stored as
`self.weights` by `WeightedLosses.__init__`. -/
noncomputable def weights (decay_rate : ℝ) (forecast_length : ℕ) : List ℝ :=
  (rawWeights decay_rate forecast_length).map
    (fun x => x / (rawWeights decay_rate forecast_length).sum)

/-- elementwise difference of two equally-shaped 1-d tensors (`output - target`). -/
def tensorSub (a b : List ℝ) : List ℝ := List.zipWith (fun x y => x - y) a b

/-- elementwise product of two equally-shaped 1-d tensors. -/
def tensorMul (a b : List ℝ) : List ℝ := List.zipWith (fun x y => x * y) a b

/-- elementwise square (`** 2`) of a 1-d tensor. -/
def tensorSquare (a : List ℝ) : List ℝ := a.map (fun x => x ^ 2)

/-- elementwise absolute value (`torch.abs`) of a 1-d tensor. -/
noncomputable def tensorAbs (a : List ℝ) : List ℝ := a.map (fun x => |x|)

/-- `WeightedLosses.get_mse_exp`: `torch.sum(self.weights * (output - target) ** 2)`,
with the stored weight vector passed explicitly. -/
def get_mse_exp (w output target : List ℝ) : ℝ :=
  (tensorMul w (tensorSquare (tensorSub output target))).sum

/-- `WeightedLosses.get_mae_exp`: `torch.sum(self.weights * torch.abs(output - target))`,
with the stored weight vector passed explicitly. -/
noncomputable def get_mae_exp (w output target : List ℝ) : ℝ :=
  (tensorMul w (tensorAbs (tensorSub output target))).sum

/-! ### Baseline persistence model (`pvnet/models/baseline/last_value.py`) -/

/-- Python-style indexing into a list: a negative index counts from the end,
an index out of range is an error (`none`). -/
def pyIndex {α : Type _} (l : List α) (i : ℤ) : Option α :=
  if i < 0 then
    if 0 ≤ (l.length : ℤ) + i then l[((l.length : ℤ) + i).toNat]? else none
  else l[i.toNat]?

/-- `Model.forward` of the `last_value` baseline: for each batch element take
`gsp_yield[:, -self.forecast_len - 1, 0]` and repeat it `forecast_len` times
(`y_hat.unsqueeze(1).repeat(1, self.forecast_len)`).  The gsp tensor is a
batch of `seq_length × n_sites` matrices. -/
def lastValueForward (forecast_len : ℕ) (gsp : List (List (List ℝ))) :
    Option (List (List ℝ)) :=
  gsp.mapM (fun seq =>
    (pyIndex seq (-(forecast_len : ℤ) - 1)).bind (fun row =>
      (pyIndex row 0).map (fun v => List.replicate forecast_len v)))

/-! ### Shape calculus for the conv3d encoders (`pvnet/models/conv3d/encoders.py`)

A 5-d tensor shape `(d0, d1, d2, d3, d4)`; `nn.Conv3d` reads `d1` as the
channel dimension and `d2, d3, d4` as depth/height/width. -/

structure Shape5 where
  d0 : ℕ
  d1 : ℕ
  d2 : ℕ
  d3 : ℕ
  d4 : ℕ
deriving DecidableEq

/-- output size of one convolution dimension with kernel `k`, padding `p`,
stride `s`; PyTorch requires a non-empty input dimension and a kernel no
larger than the padded input. -/
def convDim (size k p s : ℕ) : Option ℕ :=
  if 1 ≤ size ∧ k ≤ size + 2 * p then some ((size + 2 * p - k) / s + 1) else none

/-- shape action of `nn.Conv3d(in_channels=cin, out_channels=cout,
kernel_size=(k2,k3,k4), padding=(p2,p3,p4), stride=(s2,s3,s4))`; the input
channel dimension `d1` must equal `cin`. -/
def conv3dShape (cin cout k2 k3 k4 p2 p3 p4 s2 s3 s4 : ℕ) (x : Shape5) :
    Option Shape5 :=
  if x.d1 = cin then
    match convDim x.d2 k2 p2 s2, convDim x.d3 k3 p3 s3, convDim x.d4 k4 p4 s4 with
    | some a, some b, some c => some ⟨x.d0, cout, a, b, c⟩
    | _, _, _ => none
  else none

/-- iterate a fallible shape transformation `n` times. -/
def iterOpt {α : Type _} (f : α → Option α) : ℕ → α → Option α
  | 0, x => some x
  | n + 1, x => (f x).bind (iterOpt f n)

/-- shape action of `ResidualConv3dBlock`: `n_layers` convolutions
`Conv3d(c, c, kernel_size=(3,3,3), padding=(1,1,1))` (interleaved with
shape-preserving activations) followed by the skip addition `convs(x) + x`,
which requires the two operands to have the same shape. -/
def residualBlockShape (c n_layers : ℕ) (x : Shape5) : Option Shape5 :=
  match iterOpt (conv3dShape c c 3 3 3 1 1 1 1 1 1) n_layers x with
  | some y => if y = x then some x else none
  | none => none

/-- shape action of `nn.Linear(in_features, out_features)` on a 2-d input. -/
def linearShape (in_features out_features : ℕ) (x : ℕ × ℕ) : Option (ℕ × ℕ) :=
  if x.2 = in_features then some (x.1, out_features) else none

/-! #### DefaultPVNet -/

/-- hyperparameters of `DefaultPVNet.__init__`. -/
structure DefaultPVNetHP where
  sequence_length : ℕ
  image_size_pixels : ℕ
  in_channels : ℕ
  out_features : ℕ
  number_of_conv3d_layers : ℕ
  conv3d_channels : ℕ
  fc_features : ℕ
deriving DecidableEq

/-- validation in `DefaultPVNet.__init__` over Python integers:
`cnn_spatial_output_size = image_size_pixels - 2 * number_of_conv3d_layers`
must be positive, otherwise `ValueError` is raised. -/
def defaultPVNetInitCheck (image_size_pixels number_of_conv3d_layers : ℤ) :
    Except String Unit :=
  let cnn_spatial_output_size := image_size_pixels - 2 * number_of_conv3d_layers
  if ¬ cnn_spatial_output_size > 0 then Except.error "ValueError" else Except.ok ()

/-- `cnn_output_size` computed in `DefaultPVNet.__init__`:
`conv3d_channels * cnn_spatial_output_size ** 2 * sequence_length`. -/
def defaultPVNetCnnOutputSize (hp : DefaultPVNetHP) : ℕ :=
  hp.conv3d_channels * (hp.image_size_pixels - 2 * hp.number_of_conv3d_layers) ^ 2
    * hp.sequence_length

/-- shape action of `DefaultPVNet.conv_layers`: one
`Conv3d(in_channels, conv3d_channels, kernel_size=(3,3,3), padding=(1,0,0))`
followed by `number_of_conv3d_layers - 1` convolutions
`Conv3d(conv3d_channels, conv3d_channels, kernel_size=(3,3,3), padding=(1,0,0))`. -/
def defaultPVNetConvStack (cin cch n : ℕ) (x : Shape5) : Option Shape5 :=
  (conv3dShape cin cch 3 3 3 1 0 0 1 1 1 x).bind
    (iterOpt (conv3dShape cch cch 3 3 3 1 0 0 1 1 1) (n - 1))

/-- shape action of `DefaultPVNet.forward`: the conv stack, then
`out.reshape(x.shape[0], -1)` (the element count must be divisible by the
leading dimension, which must be non-zero), then `fc1` and `fc2`. -/
def defaultPVNetForwardShape (hp : DefaultPVNetHP) (x : Shape5) : Option (ℕ × ℕ) := do
  let y ← defaultPVNetConvStack hp.in_channels hp.conv3d_channels
    hp.number_of_conv3d_layers x
  let numel := y.d0 * y.d1 * y.d2 * y.d3 * y.d4
  if x.d0 = 0 then none
  else if ¬ x.d0 ∣ numel then none
  else do
    let z ← linearShape (defaultPVNetCnnOutputSize hp) hp.fc_features (x.d0, numel / x.d0)
    linearShape hp.fc_features hp.out_features z

/-! #### EncoderUNET -/

/-- hyperparameters of `EncoderUNET.__init__`. -/
structure EncoderUNETHP where
  sequence_length : ℕ
  image_size_pixels : ℕ
  in_channels : ℕ
  out_features : ℕ
  n_downscale : ℕ
  conv3d_channels : ℕ
  fc_features : ℕ
deriving DecidableEq

/-- validation in `EncoderUNET.__init__` over Python integers:
`cnn_spatial_output = image_size_pixels // (2 ** n_downscale)` must be
positive, otherwise `ValueError` is raised (`//` is Python floor division). -/
def encoderUNETInitCheck (image_size_pixels : ℤ) (n_downscale : ℕ) :
    Except String Unit :=
  let cnn_spatial_output := Int.fdiv image_size_pixels (2 ^ n_downscale)
  if ¬ cnn_spatial_output > 0 then Except.error "ValueError" else Except.ok ()

/-- the `CenterCrop(image_size_pixels // (2 ** n_downscale))` target size. -/
def unetCropSize (hp : EncoderUNETHP) : ℕ :=
  hp.image_size_pixels / 2 ^ hp.n_downscale

/-- `cat_channels = conv3d_channels * (1 + n_downscale)`, the `in_channels`
of `cat_conv` in `EncoderUNET.__init__`. -/
def unetCatChannels (hp : EncoderUNETHP) : ℕ :=
  hp.conv3d_channels * (1 + hp.n_downscale)

/-- `final_channels` computed in `EncoderUNET.__init__`:
`(image_size_pixels // (2 ** n_downscale)) ** 2 * conv3d_channels * sequence_length`. -/
def unetFinalChannels (hp : EncoderUNETHP) : ℕ :=
  (hp.image_size_pixels / 2 ^ hp.n_downscale) ^ 2 * hp.conv3d_channels
    * hp.sequence_length

/-- shape action of `torchvision.transforms.CenterCrop(t)`: the last two
dimensions become `t` (cropping, or zero-padding when the input is smaller). -/
def centerCropShape (t : ℕ) (x : Shape5) : Shape5 :=
  ⟨x.d0, x.d1, x.d2, t, t⟩

/-- shape action of `EncoderUNET.first_layer`:
`Conv3d(in_channels, conv3d_channels, kernel_size=(1,1,1), padding=(0,0,0))`,
a shape-preserving activation, and a `ResidualConv3dBlock(conv3d_channels, 3)`. -/
def unetFirstLayerShape (cin cch : ℕ) (x : Shape5) : Option Shape5 :=
  (conv3dShape cin cch 1 1 1 0 0 0 1 1 1 x).bind (residualBlockShape cch 3)

/-- shape action of one element of `EncoderUNET.downscale_layers`:
`ResidualConv3dBlock(conv3d_channels, 3)` then
`Conv3d(conv3d_channels, conv3d_channels, kernel_size=(1,2,2), padding=(0,0,0),
stride=(1,2,2))` and a shape-preserving activation. -/
def unetDownscaleShape (cch : ℕ) (x : Shape5) : Option Shape5 :=
  (residualBlockShape cch 3 x).bind (conv3dShape cch cch 1 2 2 0 0 0 1 2 2)

/-- the loop of `EncoderUNET.forward` that collects the feature maps for
concatenation: starting from the output of `first_layer`, record the current
map together with its `CenterCrop`, downscale, and repeat; `m` is the number
of downscale layers still to apply.  Each recorded pair is (shape fed to the
crop, shape after the crop). -/
def unetCollectFeatures (cch crop : ℕ) : ℕ → Shape5 → Option (List (Shape5 × Shape5))
  | 0, x => some [(x, centerCropShape crop x)]
  | m + 1, x =>
    ((unetDownscaleShape cch x).bind (unetCollectFeatures cch crop m)).map
      (fun rest => (x, centerCropShape crop x) :: rest)

/-- shape action of `torch.cat(outputs, dim=1)`: all shapes must agree
outside dimension 1, whose sizes add up; an empty list is an error. -/
def catShapes : List Shape5 → Option Shape5
  | [] => none
  | [x] => some x
  | x :: y :: rest =>
    (catShapes (y :: rest)).bind (fun z =>
      if x.d0 = z.d0 ∧ x.d2 = z.d2 ∧ x.d3 = z.d3 ∧ x.d4 = z.d4 then
        some ⟨x.d0, x.d1 + z.d1, x.d2, x.d3, x.d4⟩
      else none)

/-- shape action of `EncoderUNET.forward`: `first_layer`, the collect loop,
`torch.cat(outputs, dim=1)`, `cat_conv`, `final_conv`,
`torch.flatten(out, start_dim=1)`, and the two linear layers of `final_block`. -/
def encoderUNETForwardShape (hp : EncoderUNETHP) (x : Shape5) : Option (ℕ × ℕ) := do
  let y ← unetFirstLayerShape hp.in_channels hp.conv3d_channels x
  let feats ← unetCollectFeatures hp.conv3d_channels (unetCropSize hp) hp.n_downscale y
  let c ← catShapes (feats.map Prod.snd)
  let c2 ← conv3dShape (unetCatChannels hp) hp.conv3d_channels 1 1 1 0 0 0 1 1 1 c
  let c3 ← residualBlockShape hp.conv3d_channels 3 c2
  let z ← linearShape (unetFinalChannels hp) hp.fc_features
    (c3.d0, c3.d1 * c3.d2 * c3.d3 * c3.d4)
  linearShape hp.fc_features hp.out_features z

/-! ### Checkpoint upload (`scripts/checkpoint_to_huggingface.py`) -/

/-- the side-effecting stages of `push_to_huggingface`, in source order,
after the leading `assert`; their internals are third-party I/O and are kept
abstract. -/
inductive PushStep where
  | wandbLookup
  | modelConfigParse
  | modelInstantiate
  | checkpointLoad
  | stateDictLoad
  | dataConfigCheck
  | savePretrained
deriving DecidableEq

/-- the stages executed by a run of `push_to_huggingface` that passes the
leading assertion, in source order. -/
def pushSteps : List PushStep :=
  [.wandbLookup, .modelConfigParse, .modelInstantiate, .checkpointLoad,
   .stateDictLoad, .dataConfigCheck, .savePretrained]

/-- control flow of `push_to_huggingface`: the first statement is
`assert push_to_hub or local_path is not None`; when it fails the function
raises `AssertionError` having performed none of the later stages, and when
it passes the function proceeds through the stages in order. -/
def push_to_huggingface (push_to_hub : Bool) (local_path : Option String) :
    Except String (List PushStep) :=
  if push_to_hub || local_path.isSome then Except.ok pushSteps
  else Except.error "AssertionError"

/-- Claim C4: `DefaultPVNet.__init__` raises `ValueError` exactly when
`image_size_pixels - 2 * number_of_conv3d_layers <= 0`, and completes
normally exactly when that quantity is positive. -/
theorem defaultPVNet_init_raises_iff (image_size_pixels number_of_conv3d_layers : ℤ) :
    (defaultPVNetInitCheck image_size_pixels number_of_conv3d_layers
        = Except.error "ValueError"
      ↔ image_size_pixels - 2 * number_of_conv3d_layers ≤ 0) ∧
    (defaultPVNetInitCheck image_size_pixels number_of_conv3d_layers = Except.ok ()
      ↔ 0 < image_size_pixels - 2 * number_of_conv3d_layers) := by
  unfold defaultPVNetInitCheck
  by_cases h : image_size_pixels - 2 * number_of_conv3d_layers > 0 <;>
    simp [h] <;> omega

/-- Claim C5: `EncoderUNET.__init__` raises `ValueError` exactly when
`image_size_pixels // (2 ** n_downscale) <= 0`, equivalently exactly when
`image_size_pixels < 2 ** n_downscale`; it completes normally exactly when
`image_size_pixels >= 2 ** n_downscale`. -/
theorem encoderUNET_init_raises_iff (image_size_pixels : ℤ) (n_downscale : ℕ) :
    (encoderUNETInitCheck image_size_pixels n_downscale = Except.error "ValueError"
      ↔ image_size_pixels < 2 ^ n_downscale) ∧
    (encoderUNETInitCheck image_size_pixels n_downscale = Except.ok ()
      ↔ (2 : ℤ) ^ n_downscale ≤ image_size_pixels) := by
  have h2 : (0 : ℤ) < 2 ^ n_downscale := by positivity
  have key : 0 < Int.fdiv image_size_pixels (2 ^ n_downscale)
      ↔ (2 : ℤ) ^ n_downscale ≤ image_size_pixels := by
    rw [Int.fdiv_eq_ediv _ h2.le]
    rw [show (0 : ℤ) < image_size_pixels / 2 ^ n_downscale
        ↔ 1 ≤ image_size_pixels / 2 ^ n_downscale from by omega]
    rw [Int.le_ediv_iff_mul_le h2, one_mul]
  by_cases h : Int.fdiv image_size_pixels (2 ^ n_downscale) > 0
  · have hge := key.mp h
    have hok : encoderUNETInitCheck image_size_pixels n_downscale = Except.ok () := by
      simp [encoderUNETInitCheck, h]
    rw [hok]
    refine ⟨⟨fun hc => by simp at hc, fun hlt => absurd hge (not_le.mpr hlt)⟩, ?_⟩
    simp [hge]
  · have hlt : image_size_pixels < 2 ^ n_downscale :=
      not_le.mp (fun hc => h (key.mpr hc))
    have herr : encoderUNETInitCheck image_size_pixels n_downscale
        = Except.error "ValueError" := by
      simp [encoderUNETInitCheck, h]
    rw [herr]
    exact ⟨by simp [hlt], ⟨fun hc => by simp at hc, fun hc => absurd hc (not_le.mpr hlt)⟩⟩

/-- Claim C10: `push_to_huggingface` fails with `AssertionError` before performing
any stage exactly when `push_to_hub` is false and `local_path` is `None`;
otherwise the assertion passes and the stages run in order. -/
theorem push_to_huggingface_assert_guard (push_to_hub : Bool) (local_path : Option String) :
    (push_to_huggingface push_to_hub local_path = Except.error "AssertionError"
      ↔ push_to_hub = false ∧ local_path = none) ∧
    (push_to_huggingface push_to_hub local_path = Except.ok pushSteps
      ↔ (push_to_hub = true ∨ local_path ≠ none)) := by
  cases push_to_hub <;> cases local_path <;> simp [push_to_huggingface]

/-- Claim C6: the encoders do not map every input of the documented shape
`(batch_size, sequence_length, channels, height, width)` to `(batch_size,
out_features)`: with `sequence_length = 2`, `in_channels = 1`,
`image_size_pixels = 3` (resp. `2`), `out_features = 4`, both
`DefaultPVNet.forward` and `EncoderUNET.forward` fail on the documented
shape because the first `Conv3d` reads dimension 1 (here `sequence_length`)
as its channel dimension, while the transposed layout
`(batch_size, channels, sequence_length, height, width)` is mapped to
`(batch_size, out_features)`. -/
theorem encoders_reject_documented_shape :
    defaultPVNetForwardShape ⟨2, 3, 1, 4, 1, 2, 5⟩ ⟨1, 2, 1, 3, 3⟩ = none ∧
    defaultPVNetForwardShape ⟨2, 3, 1, 4, 1, 2, 5⟩ ⟨1, 1, 2, 3, 3⟩ = some (1, 4) ∧
    encoderUNETForwardShape ⟨2, 2, 1, 4, 1, 2, 5⟩ ⟨1, 2, 1, 2, 2⟩ = none ∧
    encoderUNETForwardShape ⟨2, 2, 1, 4, 1, 2, 5⟩ ⟨1, 1, 2, 2, 2⟩ = some (1, 4) := by
  refine ⟨rfl, rfl, rfl, rfl⟩

lemma sum_map_range (f : ℕ → ℝ) (n : ℕ) :
    ((List.range n).map f).sum = ∑ j in Finset.range n, f j := by
  induction n with
  | zero => simp
  | succ k ih =>
    rw [List.range_succ, List.map_append, List.sum_append, Finset.sum_range_succ, ih]
    simp

lemma getD_map_range (f : ℕ → ℝ) {n i : ℕ} (h : i < n) :
    ((List.range n).map f).getD i 0 = f i := by
  rw [List.getD_eq_getElem _ _ (by simpa using h), List.getElem_map,
    List.getElem_range]

lemma weights_eq_map (r : ℝ) (n : ℕ) :
    weights r n =
      (List.range n).map (fun i : ℕ => Real.exp (-r * i) / (rawWeights r n).sum) := by
  rw [weights, rawWeights, List.map_map]
  rfl

lemma rawWeights_sum_eq (r : ℝ) (n : ℕ) :
    (rawWeights r n).sum = ∑ j in Finset.range n, Real.exp (-r * j) := by
  rw [rawWeights, sum_map_range]

lemma rawWeights_sum_pos (r : ℝ) {n : ℕ} (hn : 1 ≤ n) : 0 < (rawWeights r n).sum := by
  rw [rawWeights_sum_eq]
  exact Finset.sum_pos (fun i _ => Real.exp_pos _)
    (Finset.nonempty_range_iff.mpr (by omega))

lemma weights_length (r : ℝ) (n : ℕ) : (weights r n).length = n := by
  simp [weights, rawWeights]

lemma weights_getD (r : ℝ) {n i : ℕ} (h : i < n) :
    (weights r n).getD i 0 =
      Real.exp (-r * i) / ∑ j in Finset.range n, Real.exp (-r * j) := by
  rw [weights_eq_map, getD_map_range _ h, rawWeights_sum_eq]

lemma sum_map_div (l : List ℝ) (S : ℝ) : (l.map (fun x => x / S)).sum = l.sum / S := by
  induction l with
  | nil => simp
  | cons a t ih => simp [ih, add_div]

lemma weights_sum_one (r : ℝ) {n : ℕ} (hn : 1 ≤ n) : (weights r n).sum = 1 := by
  rw [weights, sum_map_div, div_self (rawWeights_sum_pos r hn).ne']

lemma weights_getD_pos (r : ℝ) {n i : ℕ} (hn : 1 ≤ n) (h : i < n) :
    0 < (weights r n).getD i 0 := by
  rw [weights_getD r h]
  exact div_pos (Real.exp_pos _)
    (by rw [← rawWeights_sum_eq]; exact rawWeights_sum_pos r hn)

lemma exp_neg_log_two_mul (i : ℕ) :
    Real.exp (-Real.log 2 * i) = ((2 : ℝ) ^ i)⁻¹ := by
  rw [neg_mul, Real.exp_neg, mul_comm, Real.exp_nat_mul,
    Real.exp_log (by norm_num : (0:ℝ) < 2)]

lemma geom_half_sum : ∀ m : ℕ,
    (∑ j in Finset.range (m + 1), ((2 : ℝ) ^ j)⁻¹) * 2 ^ m = 2 ^ (m + 1) - 1 := by
  intro m
  induction m with
  | zero => norm_num
  | succ p ih =>
    rw [Finset.sum_range_succ, add_mul, inv_mul_cancel₀ (by positivity : ((2:ℝ) ^ (p+1)) ≠ 0)]
    rw [pow_succ (2:ℝ) p, ← mul_assoc, ih, pow_succ (2:ℝ) (p+1)]
    ring

lemma default_weight_rat {n i : ℕ} (h : i < n) :
    ((2 : ℝ) ^ i)⁻¹ / ∑ j in Finset.range n, ((2 : ℝ) ^ j)⁻¹ =
      (2 : ℝ) ^ (n - 1 - i) / ((2 : ℝ) ^ n - 1) := by
  obtain ⟨k, rfl⟩ : ∃ k, n = i + k + 1 := ⟨n - i - 1, by omega⟩
  have hk : i + k + 1 - 1 - i = k := by omega
  rw [hk]
  have hS2 : ∑ j in Finset.range (i + k + 1), ((2 : ℝ) ^ j)⁻¹ =
      ((2 : ℝ) ^ (i + k + 1) - 1) / 2 ^ (i + k) := by
    rw [eq_div_iff (by positivity : ((2:ℝ) ^ (i + k)) ≠ 0)]
    exact geom_half_sum (i + k)
  have hik : ((2 : ℝ) ^ i)⁻¹ * 2 ^ (i + k) = 2 ^ k := by
    rw [pow_add, ← mul_assoc, inv_mul_cancel₀ (by positivity : ((2:ℝ) ^ i) ≠ 0), one_mul]
  rw [hS2, div_div_eq_mul_div, hik]

/-- Claim C1: `WeightedLosses.__init__` precomputes a weight vector of length
`forecast_length` whose entry `i` is `exp(-decay_rate * i)` divided by the
sum over `j < forecast_length` of `exp(-decay_rate * j)` (with the decay
rate set to `ln 2` when the argument is `None`), so the weights sum to 1;
with the default decay rate entry `i` is `2^(-i) / (sum over j of 2^(-j))`,
which is the exact rational `2^(n-1-i) / (2^n - 1)`. -/
theorem weightedLosses_weights_spec (dr : Option ℝ) (n : ℕ) (hn : 1 ≤ n) :
    (weights (decayRateOf dr) n).length = n ∧
    (weights (decayRateOf dr) n).sum = 1 ∧
    (∀ i, i < n → (weights (decayRateOf dr) n).getD i 0 =
      Real.exp (-(decayRateOf dr) * i) /
        ∑ j in Finset.range n, Real.exp (-(decayRateOf dr) * j)) ∧
    (∀ i, i < n → (weights (decayRateOf none) n).getD i 0 =
      ((2 : ℝ) ^ i)⁻¹ / ∑ j in Finset.range n, ((2 : ℝ) ^ j)⁻¹) ∧
    (∀ i, i < n → (weights (decayRateOf none) n).getD i 0 =
      ((2 ^ (n - 1 - i) / (2 ^ n - 1) : ℚ) : ℝ)) := by
  have hlog : decayRateOf none = Real.log 2 := rfl
  have hdefault : ∀ i, i < n → (weights (decayRateOf none) n).getD i 0 =
      ((2 : ℝ) ^ i)⁻¹ / ∑ j in Finset.range n, ((2 : ℝ) ^ j)⁻¹ := by
    intro i hi
    rw [weights_getD _ hi, hlog]
    simp_rw [exp_neg_log_two_mul]
  refine ⟨weights_length _ _, weights_sum_one _ hn,
    fun i hi => weights_getD _ hi, hdefault, ?_⟩
  intro i hi
  rw [hdefault i hi, default_weight_rat hi]
  push_cast
  ring

lemma weightedReduce_sum (φ : ℝ → ℝ) :
    ∀ (w o t : List ℝ), o.length = w.length → t.length = w.length →
      (tensorMul w ((tensorSub o t).map φ)).sum =
        ∑ i in Finset.range w.length, w.getD i 0 * φ (o.getD i 0 - t.getD i 0) := by
  intro w
  induction w with
  | nil =>
    intro o t ho ht
    simp [tensorMul, tensorSub]
  | cons a w ih =>
    intro o t ho ht
    cases o with
    | nil => simp at ho
    | cons b o =>
      cases t with
      | nil => simp at ht
      | cons c t =>
        simp only [tensorSub, List.zipWith_cons_cons, List.map_cons, tensorMul,
          List.sum_cons, List.length_cons]
        rw [Finset.sum_range_succ']
        simp only [List.getD_cons_succ, List.getD_cons_zero]
        rw [← ih o t (by simpa using ho) (by simpa using ht)]
        simp only [tensorMul, tensorSub]
        ring

/-- Claim C2: `get_mse_exp` and `get_mae_exp` applied to the precomputed weight
vector are the weighted MSE/MAE reductions over the forecast horizons. -/
theorem weightedLosses_reductions (dr : Option ℝ) (n : ℕ) (output target : List ℝ)
    (ho : output.length = n) (ht : target.length = n) :
    get_mse_exp (weights (decayRateOf dr) n) output target =
      ∑ i in Finset.range n,
        (weights (decayRateOf dr) n).getD i 0 *
          (output.getD i 0 - target.getD i 0) ^ 2 ∧
    get_mae_exp (weights (decayRateOf dr) n) output target =
      ∑ i in Finset.range n,
        (weights (decayRateOf dr) n).getD i 0 *
          |output.getD i 0 - target.getD i 0| := by
  have hw : (weights (decayRateOf dr) n).length = n := weights_length _ _
  constructor
  · have h := weightedReduce_sum (fun x => x ^ 2) (weights (decayRateOf dr) n)
      output target (by rw [ho, hw]) (by rw [ht, hw])
    rw [hw] at h
    simpa [get_mse_exp, tensorSquare] using h
  · have h := weightedReduce_sum (fun x => |x|) (weights (decayRateOf dr) n)
      output target (by rw [ho, hw]) (by rw [ht, hw])
    rw [hw] at h
    simpa [get_mae_exp, tensorAbs] using h

/-- Claim C8: consecutive precomputed weights satisfy
`weights[i+1] = weights[i] * exp(-decay_rate)`, hence the weights strictly
decrease along the horizon for a positive decay rate, and with the default
rate `ln 2` each weight is twice its successor. -/
theorem weightedLosses_decay_monotone (r : ℝ) (n : ℕ) (hn : 2 ≤ n) (hr : 0 < r) :
    (∀ i, i + 1 < n →
      (weights r n).getD (i + 1) 0 = (weights r n).getD i 0 * Real.exp (-r)) ∧
    (∀ i, i + 1 < n →
      (weights r n).getD (i + 1) 0 < (weights r n).getD i 0) ∧
    (r = Real.log 2 → ∀ i, i + 1 < n →
      (weights r n).getD i 0 = 2 * (weights r n).getD (i + 1) 0) := by
  have hn1 : 1 ≤ n := by omega
  have hratio : ∀ i, i + 1 < n →
      (weights r n).getD (i + 1) 0 = (weights r n).getD i 0 * Real.exp (-r) := by
    intro i hi
    rw [weights_getD _ hi, weights_getD _ (by omega : i < n), div_mul_eq_mul_div]
    congr 2
    rw [← Real.exp_add]
    congr 1
    push_cast
    ring
  refine ⟨hratio, ?_, ?_⟩
  · intro i hi
    rw [hratio i hi]
    have hpos := weights_getD_pos r hn1 (by omega : i < n)
    have hlt : Real.exp (-r) < 1 := Real.exp_lt_one_iff.mpr (by linarith)
    exact mul_lt_of_lt_one_right hpos hlt
  · intro hlog i hi
    rw [hratio i hi, hlog]
    rw [show Real.exp (-Real.log 2) = 2⁻¹ from by
      rw [Real.exp_neg, Real.exp_log (by norm_num : (0:ℝ) < 2)]]
    ring

lemma weights_mem_pos (r : ℝ) {n : ℕ} (hn : 1 ≤ n) :
    ∀ x ∈ weights r n, 0 < x := by
  intro x hx
  rw [weights_eq_map] at hx
  obtain ⟨i, _, rfl⟩ := List.mem_map.mp hx
  exact div_pos (Real.exp_pos _) (rawWeights_sum_pos r hn)

lemma weightedReduce_nonneg_iff (φ : ℝ → ℝ) (hφ0 : ∀ x, 0 ≤ φ x)
    (hφz : ∀ x, φ x = 0 ↔ x = 0) :
    ∀ (w o t : List ℝ), (∀ x ∈ w, 0 < x) → o.length = w.length →
      t.length = w.length →
      0 ≤ (tensorMul w ((tensorSub o t).map φ)).sum ∧
      ((tensorMul w ((tensorSub o t).map φ)).sum = 0 ↔ o = t) := by
  intro w
  induction w with
  | nil =>
    intro o t _ ho ht
    have ho' : o = [] := List.length_eq_zero.mp (by simpa using ho)
    have ht' : t = [] := List.length_eq_zero.mp (by simpa using ht)
    subst ho'
    subst ht'
    simp [tensorMul, tensorSub]
  | cons a w ih =>
    intro o t hw ho ht
    cases o with
    | nil => simp at ho
    | cons b o =>
      cases t with
      | nil => simp at ht
      | cons c t =>
        have ha : 0 < a := hw a (by simp)
        have ihres := ih o t (fun x hx => hw x (by simp [hx]))
          (by simpa using ho) (by simpa using ht)
        simp only [tensorMul, tensorSub] at ihres
        simp only [tensorSub, List.zipWith_cons_cons, List.map_cons, tensorMul,
          List.sum_cons]
        have hterm : 0 ≤ a * φ (b - c) := mul_nonneg ha.le (hφ0 _)
        refine ⟨add_nonneg hterm ihres.1, ?_⟩
        rw [add_eq_zero_iff_of_nonneg hterm ihres.1, mul_eq_zero]
        constructor
        · rintro ⟨h1, h2⟩
          have hbc : b = c := by
            rcases h1 with h1 | h1
            · exact absurd h1 ha.ne'
            · exact sub_eq_zero.mp ((hφz _).mp h1)
          rw [hbc, ihres.2.mp h2]
        · intro he
          injection he with h1 h2
          exact ⟨Or.inr ((hφz _).mpr (by rw [h1, sub_self])),
            ihres.2.mpr h2⟩

/-- Claim C9: all precomputed weights are strictly positive, so the weighted
MSE/MAE losses are nonnegative and vanish exactly when output equals
target; in particular the loss of any output against itself is 0. -/
theorem weightedLosses_pos_def (dr : Option ℝ) (n : ℕ) (hn : 1 ≤ n)
    (output target : List ℝ) (ho : output.length = n) (ht : target.length = n) :
    (∀ i, i < n → 0 < (weights (decayRateOf dr) n).getD i 0) ∧
    0 ≤ get_mse_exp (weights (decayRateOf dr) n) output target ∧
    0 ≤ get_mae_exp (weights (decayRateOf dr) n) output target ∧
    (get_mse_exp (weights (decayRateOf dr) n) output target = 0 ↔ output = target) ∧
    (get_mae_exp (weights (decayRateOf dr) n) output target = 0 ↔ output = target) ∧
    get_mse_exp (weights (decayRateOf dr) n) output output = 0 ∧
    get_mae_exp (weights (decayRateOf dr) n) output output = 0 := by
  have hw : (weights (decayRateOf dr) n).length = n := weights_length _ _
  have hmem := weights_mem_pos (decayRateOf dr) hn
  have hsq := weightedReduce_nonneg_iff (fun x => x ^ 2) (fun x => sq_nonneg x)
    (fun x => sq_eq_zero_iff)
  have habs := weightedReduce_nonneg_iff (fun x => |x|) (fun x => abs_nonneg x)
    (fun x => abs_eq_zero)
  have h1 := hsq (weights (decayRateOf dr) n) output target hmem
    (by rw [ho, hw]) (by rw [ht, hw])
  have h2 := habs (weights (decayRateOf dr) n) output target hmem
    (by rw [ho, hw]) (by rw [ht, hw])
  have h3 := hsq (weights (decayRateOf dr) n) output output hmem
    (by rw [ho, hw]) (by rw [ho, hw])
  have h4 := habs (weights (decayRateOf dr) n) output output hmem
    (by rw [ho, hw]) (by rw [ho, hw])
  refine ⟨fun i hi => weights_getD_pos _ hn hi, ?_, ?_, ?_, ?_, ?_, ?_⟩
  · simpa [get_mse_exp, tensorSquare] using h1.1
  · simpa [get_mae_exp, tensorAbs] using h2.1
  · simpa [get_mse_exp, tensorSquare] using h1.2
  · simpa [get_mae_exp, tensorAbs] using h2.2
  · simpa [get_mse_exp, tensorSquare] using h3.2.mpr rfl
  · simpa [get_mae_exp, tensorAbs] using h4.2.mpr rfl

lemma pyIndex_neg {α : Type _} (l : List α) (f : ℕ) (hf : f + 1 ≤ l.length) :
    pyIndex l (-(f : ℤ) - 1) = l[l.length - f - 1]? := by
  unfold pyIndex
  rw [if_pos (by omega : -(f : ℤ) - 1 < 0),
    if_pos (by omega : (0:ℤ) ≤ (l.length : ℤ) + (-(f:ℤ) - 1))]
  congr 1
  omega

lemma pyIndex_zero {α : Type _} (l : List α) :
    pyIndex l 0 = l[0]? := by
  unfold pyIndex
  rw [if_neg (by omega : ¬ (0:ℤ) < 0)]
  rfl

lemma lastValue_row (f s m : ℕ) (seq : List (List ℝ))
    (hlen : seq.length = s) (hrow : ∀ row ∈ seq, row.length = m)
    (hs : f + 1 ≤ s) (hm : 1 ≤ m) :
    (pyIndex seq (-(f : ℤ) - 1)).bind (fun row =>
      (pyIndex row 0).map (fun v => List.replicate f v)) =
      some (List.replicate f ((seq.getD (s - f - 1) []).getD 0 0)) := by
  have hidx : s - f - 1 < seq.length := by omega
  rw [pyIndex_neg seq f (by omega), hlen]
  have hget : seq[s - f - 1]? = some (seq.getD (s - f - 1) []) := by
    rw [List.getElem?_eq_getElem hidx, List.getD_eq_getElem _ _ hidx]
  rw [hget]
  have hrowmem : seq.getD (s - f - 1) [] ∈ seq := by
    rw [List.getD_eq_getElem _ _ hidx]
    exact List.getElem_mem _
  have hrl : (seq.getD (s - f - 1) []).length = m := hrow _ hrowmem
  have h0 : (0 : ℕ) < (seq.getD (s - f - 1) []).length := by omega
  rw [Option.some_bind, pyIndex_zero, List.getElem?_eq_getElem h0,
    List.getD_eq_getElem _ _ h0]
  rfl

lemma mapM_option_map {α β : Type _} (F : α → Option β) (g : α → β)
    (l : List α) (h : ∀ x ∈ l, F x = some (g x)) :
    l.mapM F = some (l.map g) := by
  induction l with
  | nil => rfl
  | cons a t ih =>
    rw [List.mapM_cons, h a (by simp), ih (fun x hx => h x (by simp [hx]))]
    rfl

/-- Claim C3: for gsp tensors of shape `(batch_size, seq_length, n_sites)` with
`seq_length >= forecast_len + 1` and `n_sites >= 1`, the `last_value`
baseline forward returns a `(batch_size, forecast_len)` tensor whose row `b`
is the last observed value `gsp[b][seq_length - forecast_len - 1][0]`
repeated across the whole horizon. -/
theorem lastValue_forward_spec (forecast_len s m : ℕ) (gsp : List (List (List ℝ)))
    (hshape : ∀ seq ∈ gsp, seq.length = s ∧ ∀ row ∈ seq, row.length = m)
    (hs : forecast_len + 1 ≤ s) (hm : 1 ≤ m) :
    ∃ out, lastValueForward forecast_len gsp = some out ∧
      out.length = gsp.length ∧
      (∀ b, b < gsp.length →
        out.getD b [] = List.replicate forecast_len
          (((gsp.getD b []).getD (s - forecast_len - 1) []).getD 0 0)) ∧
      (∀ b, b < gsp.length → (out.getD b []).length = forecast_len) := by
  set g : List (List ℝ) → List ℝ := fun seq =>
    List.replicate forecast_len ((seq.getD (s - forecast_len - 1) []).getD 0 0)
    with hg
  have hmain : lastValueForward forecast_len gsp = some (gsp.map g) := by
    apply mapM_option_map
    intro seq hseq
    exact lastValue_row forecast_len s m seq (hshape seq hseq).1
      (hshape seq hseq).2 hs hm
  have hgetD : ∀ b, b < gsp.length → (gsp.map g).getD b [] = g (gsp.getD b []) := by
    intro b hb
    rw [List.getD_eq_getElem _ _ (by simpa : b < (gsp.map g).length),
      List.getElem_map, List.getD_eq_getElem _ _ hb]
  refine ⟨gsp.map g, hmain, by simp, ?_, ?_⟩
  · intro b hb
    rw [hgetD b hb]
  · intro b hb
    rw [hgetD b hb, hg]
    simp

lemma convDim_one {s : ℕ} (hs : 1 ≤ s) : convDim s 1 0 1 = some s := by
  simp only [convDim, if_pos (by omega : 1 ≤ s ∧ 1 ≤ s + 2 * 0)]
  congr 1
  omega

lemma convDim_three_pad {s : ℕ} (hs : 1 ≤ s) : convDim s 3 1 1 = some s := by
  simp only [convDim, if_pos (by omega : 1 ≤ s ∧ 3 ≤ s + 2 * 1)]
  congr 1
  omega

lemma convDim_down {s : ℕ} (hs : 2 ≤ s) : convDim s 2 0 2 = some (s / 2) := by
  simp only [convDim, if_pos (by omega : 1 ≤ s ∧ 2 ≤ s + 2 * 0)]
  congr 1
  omega

lemma conv3dShape_preserve (c : ℕ) {b d h w : ℕ}
    (hd : 1 ≤ d) (hh : 1 ≤ h) (hw : 1 ≤ w) :
    conv3dShape c c 3 3 3 1 1 1 1 1 1 ⟨b, c, d, h, w⟩ = some ⟨b, c, d, h, w⟩ := by
  simp [conv3dShape, convDim_three_pad hd, convDim_three_pad hh, convDim_three_pad hw]

lemma iterOpt_fixed {α : Type _} (f : α → Option α) (x : α) (hf : f x = some x) :
    ∀ n, iterOpt f n x = some x := by
  intro n
  induction n with
  | zero => rfl
  | succ k ih => simp [iterOpt, hf, ih]

lemma residualBlockShape_fixed (c L : ℕ) {b d h w : ℕ}
    (hd : 1 ≤ d) (hh : 1 ≤ h) (hw : 1 ≤ w) :
    residualBlockShape c L ⟨b, c, d, h, w⟩ = some ⟨b, c, d, h, w⟩ := by
  rw [residualBlockShape, iterOpt_fixed _ _ (conv3dShape_preserve c hd hh hw)]
  simp

lemma unetFirstLayerShape_eq (cin cch : ℕ) {b d h w : ℕ}
    (hd : 1 ≤ d) (hh : 1 ≤ h) (hw : 1 ≤ w) :
    unetFirstLayerShape cin cch ⟨b, cin, d, h, w⟩ = some ⟨b, cch, d, h, w⟩ := by
  have h1 : conv3dShape cin cch 1 1 1 0 0 0 1 1 1 ⟨b, cin, d, h, w⟩
      = some ⟨b, cch, d, h, w⟩ := by
    simp [conv3dShape, convDim_one hd, convDim_one hh, convDim_one hw]
  rw [unetFirstLayerShape, h1, Option.some_bind,
    residualBlockShape_fixed cch 3 hd hh hw]

lemma unetDownscaleShape_eq (cch : ℕ) {b d h w : ℕ}
    (hd : 1 ≤ d) (hh : 2 ≤ h) (hw : 2 ≤ w) :
    unetDownscaleShape cch ⟨b, cch, d, h, w⟩ = some ⟨b, cch, d, h / 2, w / 2⟩ := by
  rw [unetDownscaleShape,
    residualBlockShape_fixed cch 3 hd (by omega) (by omega), Option.some_bind]
  simp [conv3dShape, convDim_one hd, convDim_down hh, convDim_down hw]

lemma unetCollectFeatures_eq (cch : ℕ) :
    ∀ (m crop b d h : ℕ), 1 ≤ d → 2 ^ m ≤ h →
    unetCollectFeatures cch crop m ⟨b, cch, d, h, h⟩ =
      some ((List.range (m + 1)).map (fun k =>
        ((⟨b, cch, d, h / 2 ^ k, h / 2 ^ k⟩ : Shape5),
         (⟨b, cch, d, crop, crop⟩ : Shape5)))) := by
  intro m
  induction m with
  | zero =>
    intro crop b d h hd hh
    simp [unetCollectFeatures, centerCropShape, List.range_succ]
  | succ m ih =>
    intro crop b d h hd hh
    have h2 : 2 ≤ h := le_trans (by
      calc 2 = 2 ^ 1 := (pow_one 2).symm
      _ ≤ 2 ^ (m + 1) := Nat.pow_le_pow_right (by omega) (by omega)) hh
    have hh2 : 2 ^ m ≤ h / 2 := by
      rw [Nat.le_div_iff_mul_le (by omega : 0 < 2)]
      calc 2 ^ m * 2 = 2 ^ (m + 1) := (pow_succ 2 m).symm
      _ ≤ h := hh
    rw [unetCollectFeatures, unetDownscaleShape_eq cch hd h2 h2, Option.some_bind,
      ih crop b d (h / 2) hd hh2, Option.map_some']
    congr 1
    conv_rhs => rw [List.range_succ_eq_map]
    rw [List.map_cons, List.map_map]
    congr 1
    · simp [centerCropShape]
    · have hfun : ∀ k : ℕ, h / 2 / 2 ^ k = h / 2 ^ (k + 1) := by
        intro k
        rw [Nat.div_div_eq_div_mul, ← pow_succ']
      apply List.map_congr_left
      intro k _
      simp [Function.comp, hfun k]

lemma catShapes_cons_cons (x y : Shape5) (rest : List Shape5) :
    catShapes (x :: y :: rest) =
      (catShapes (y :: rest)).bind (fun z =>
        if x.d0 = z.d0 ∧ x.d2 = z.d2 ∧ x.d3 = z.d3 ∧ x.d4 = z.d4 then
          some ⟨x.d0, x.d1 + z.d1, x.d2, x.d3, x.d4⟩
        else none) := rfl

lemma catShapes_replicate (s : Shape5) :
    ∀ m, catShapes (List.replicate (m + 1) s) =
      some ⟨s.d0, s.d1 * (m + 1), s.d2, s.d3, s.d4⟩ := by
  intro m
  induction m with
  | zero => simp [catShapes]
  | succ m ih =>
    rw [List.replicate_succ, List.replicate_succ, catShapes_cons_cons,
      ← List.replicate_succ, ih, Option.some_bind, if_pos (by simp)]
    congr 2
    ring

/-- Claim C7: for a validly constructed `EncoderUNET` (`image_size_pixels >=
2 ^ n_downscale`), the forward pass collects `1 + n_downscale` feature maps
whose pre-crop spatial sizes are `image_size_pixels // 2^k` for
`k <= n_downscale`, each at least the `CenterCrop` target
`image_size_pixels // 2^n_downscale` (so the crop never pads); after the
crop every map has spatial size exactly the target, and their concatenation
along dimension 1 has `conv3d_channels * (1 + n_downscale)` channels,
matching the `in_channels` of `cat_conv`. -/
theorem encoderUNET_concat_wellformed (hp : EncoderUNETHP) (b d : ℕ)
    (hd : 1 ≤ d) (hvalid : 2 ^ hp.n_downscale ≤ hp.image_size_pixels) :
    unetFirstLayerShape hp.in_channels hp.conv3d_channels
        ⟨b, hp.in_channels, d, hp.image_size_pixels, hp.image_size_pixels⟩ =
      some ⟨b, hp.conv3d_channels, d, hp.image_size_pixels, hp.image_size_pixels⟩ ∧
    unetCollectFeatures hp.conv3d_channels (unetCropSize hp) hp.n_downscale
        ⟨b, hp.conv3d_channels, d, hp.image_size_pixels, hp.image_size_pixels⟩ =
      some ((List.range (hp.n_downscale + 1)).map (fun k =>
        ((⟨b, hp.conv3d_channels, d, hp.image_size_pixels / 2 ^ k,
            hp.image_size_pixels / 2 ^ k⟩ : Shape5),
         (⟨b, hp.conv3d_channels, d, unetCropSize hp, unetCropSize hp⟩ : Shape5)))) ∧
    (∀ k, k ≤ hp.n_downscale →
      unetCropSize hp ≤ hp.image_size_pixels / 2 ^ k) ∧
    catShapes (((List.range (hp.n_downscale + 1)).map (fun k =>
        ((⟨b, hp.conv3d_channels, d, hp.image_size_pixels / 2 ^ k,
            hp.image_size_pixels / 2 ^ k⟩ : Shape5),
         (⟨b, hp.conv3d_channels, d, unetCropSize hp, unetCropSize hp⟩ : Shape5)))).map
        Prod.snd) =
      some ⟨b, unetCatChannels hp, d, unetCropSize hp, unetCropSize hp⟩ ∧
    1 ≤ unetCropSize hp := by
  have himg : 1 ≤ hp.image_size_pixels := le_trans Nat.one_le_two_pow hvalid
  refine ⟨unetFirstLayerShape_eq _ _ hd himg himg,
    unetCollectFeatures_eq _ _ _ _ _ _ hd hvalid, ?_, ?_, ?_⟩
  · intro k hk
    exact Nat.div_le_div_left (Nat.pow_le_pow_right (by omega) hk) (by positivity)
  · rw [List.map_map]
    rw [show (Prod.snd ∘ fun k : ℕ =>
        ((⟨b, hp.conv3d_channels, d, hp.image_size_pixels / 2 ^ k,
            hp.image_size_pixels / 2 ^ k⟩ : Shape5),
         (⟨b, hp.conv3d_channels, d, unetCropSize hp, unetCropSize hp⟩ : Shape5))) =
        fun _ : ℕ =>
          (⟨b, hp.conv3d_channels, d, unetCropSize hp, unetCropSize hp⟩ : Shape5)
      from rfl]
    rw [List.map_const', List.length_range, catShapes_replicate]
    rw [unetCatChannels]
    rw [show hp.conv3d_channels * (1 + hp.n_downscale)
        = hp.conv3d_channels * (hp.n_downscale + 1) from by ring]
  · rw [unetCropSize, Nat.le_div_iff_mul_le (by positivity), one_mul]
    exact hvalid

/-- witness instantiating `weightedLosses_weights_spec` at `None`, length 3. -/
theorem weightedLosses_weights_spec_witness :
    1 ≤ 3 ∧
    ((weights (decayRateOf none) 3).length = 3 ∧
     (weights (decayRateOf none) 3).sum = 1 ∧
     (∀ i, i < 3 → (weights (decayRateOf none) 3).getD i 0 =
       Real.exp (-(decayRateOf none) * i) /
         ∑ j in Finset.range 3, Real.exp (-(decayRateOf none) * j)) ∧
     (∀ i, i < 3 → (weights (decayRateOf none) 3).getD i 0 =
       ((2 : ℝ) ^ i)⁻¹ / ∑ j in Finset.range 3, ((2 : ℝ) ^ j)⁻¹) ∧
     (∀ i, i < 3 → (weights (decayRateOf none) 3).getD i 0 =
       ((2 ^ (3 - 1 - i) / (2 ^ 3 - 1) : ℚ) : ℝ))) :=
  ⟨by norm_num, weightedLosses_weights_spec none 3 (by norm_num)⟩

/-- witness instantiating `weightedLosses_reductions` at concrete vectors. -/
theorem weightedLosses_reductions_witness :
    ([(1 : ℝ), 0].length = 2 ∧ [(0 : ℝ), 1].length = 2) ∧
    (get_mse_exp (weights (decayRateOf none) 2) [(1 : ℝ), 0] [(0 : ℝ), 1] =
      ∑ i in Finset.range 2,
        (weights (decayRateOf none) 2).getD i 0 *
          ([(1 : ℝ), 0].getD i 0 - [(0 : ℝ), 1].getD i 0) ^ 2 ∧
     get_mae_exp (weights (decayRateOf none) 2) [(1 : ℝ), 0] [(0 : ℝ), 1] =
      ∑ i in Finset.range 2,
        (weights (decayRateOf none) 2).getD i 0 *
          |[(1 : ℝ), 0].getD i 0 - [(0 : ℝ), 1].getD i 0|) :=
  ⟨⟨rfl, rfl⟩, weightedLosses_reductions none 2 [1, 0] [0, 1] rfl rfl⟩

/-- witness instantiating `lastValue_forward_spec` on a one-element batch. -/
theorem lastValue_forward_spec_witness :
    ((∀ seq ∈ [[[(5 : ℝ)], [7]]], seq.length = 2 ∧ ∀ row ∈ seq, row.length = 1) ∧
      1 + 1 ≤ 2 ∧ 1 ≤ 1) ∧
    (∃ out, lastValueForward 1 [[[(5 : ℝ)], [7]]] = some out ∧
      out.length = [[[(5 : ℝ)], [7]]].length ∧
      (∀ b, b < [[[(5 : ℝ)], [7]]].length →
        out.getD b [] = List.replicate 1
          ((([[[(5 : ℝ)], [7]]].getD b []).getD (2 - 1 - 1) []).getD 0 0)) ∧
      (∀ b, b < [[[(5 : ℝ)], [7]]].length → (out.getD b []).length = 1)) :=
  ⟨⟨by simp, by norm_num, le_refl 1⟩,
    lastValue_forward_spec 1 2 1 [[[(5 : ℝ)], [7]]] (by simp) (by norm_num) (le_refl 1)⟩

/-- witness instantiating `encoderUNET_concat_wellformed` at a small config. -/
theorem encoderUNET_concat_wellformed_witness :
    (1 ≤ 2 ∧ 2 ^ 1 ≤ 2) ∧
    (unetFirstLayerShape 1 2 ⟨1, 1, 2, 2, 2⟩ = some ⟨1, 2, 2, 2, 2⟩ ∧
     unetCollectFeatures 2 1 1 ⟨1, 2, 2, 2, 2⟩ =
       some ((List.range 2).map (fun k =>
         ((⟨1, 2, 2, 2 / 2 ^ k, 2 / 2 ^ k⟩ : Shape5), (⟨1, 2, 2, 1, 1⟩ : Shape5)))) ∧
     (∀ k, k ≤ 1 → 1 ≤ 2 / 2 ^ k) ∧
     catShapes (((List.range 2).map (fun k =>
         ((⟨1, 2, 2, 2 / 2 ^ k, 2 / 2 ^ k⟩ : Shape5),
          (⟨1, 2, 2, 1, 1⟩ : Shape5)))).map Prod.snd) = some ⟨1, 4, 2, 1, 1⟩ ∧
     1 ≤ 1) :=
  ⟨⟨by norm_num, by norm_num⟩,
    encoderUNET_concat_wellformed ⟨2, 2, 1, 4, 1, 2, 5⟩ 1 2 (by norm_num) (by norm_num)⟩

/-- witness instantiating `weightedLosses_decay_monotone` at the default rate. -/
theorem weightedLosses_decay_monotone_witness :
    (2 ≤ 3 ∧ 0 < Real.log 2) ∧
    ((∀ i, i + 1 < 3 → (weights (Real.log 2) 3).getD (i + 1) 0 =
        (weights (Real.log 2) 3).getD i 0 * Real.exp (-Real.log 2)) ∧
     (∀ i, i + 1 < 3 → (weights (Real.log 2) 3).getD (i + 1) 0 <
        (weights (Real.log 2) 3).getD i 0) ∧
     (Real.log 2 = Real.log 2 → ∀ i, i + 1 < 3 →
        (weights (Real.log 2) 3).getD i 0 =
          2 * (weights (Real.log 2) 3).getD (i + 1) 0)) :=
  ⟨⟨by norm_num, Real.log_pos (by norm_num)⟩,
    weightedLosses_decay_monotone (Real.log 2) 3 (by norm_num)
      (Real.log_pos (by norm_num))⟩

/-- witness instantiating `weightedLosses_pos_def` with output equal to target. -/
theorem weightedLosses_pos_def_witness :
    (1 ≤ 2 ∧ [(1 : ℝ), 2].length = 2 ∧ [(1 : ℝ), 2].length = 2) ∧
    ((∀ i, i < 2 → 0 < (weights (decayRateOf none) 2).getD i 0) ∧
     0 ≤ get_mse_exp (weights (decayRateOf none) 2) [(1 : ℝ), 2] [(1 : ℝ), 2] ∧
     0 ≤ get_mae_exp (weights (decayRateOf none) 2) [(1 : ℝ), 2] [(1 : ℝ), 2] ∧
     (get_mse_exp (weights (decayRateOf none) 2) [(1 : ℝ), 2] [(1 : ℝ), 2] = 0 ↔
       [(1 : ℝ), 2] = [(1 : ℝ), 2]) ∧
     (get_mae_exp (weights (decayRateOf none) 2) [(1 : ℝ), 2] [(1 : ℝ), 2] = 0 ↔
       [(1 : ℝ), 2] = [(1 : ℝ), 2]) ∧
     get_mse_exp (weights (decayRateOf none) 2) [(1 : ℝ), 2] [(1 : ℝ), 2] = 0 ∧
     get_mae_exp (weights (decayRateOf none) 2) [(1 : ℝ), 2] [(1 : ℝ), 2] = 0) :=
  ⟨⟨by norm_num, rfl, rfl⟩,
    weightedLosses_pos_def none 2 (by norm_num) [1, 2] [1, 2] rfl rfl⟩

end PVNet
